import Mathlib

/-!
Verification of the CSV-to-domain-model parser of the exhibition-map viewer
(`src/utils/csvLoader.ts`, `parseBrandsCSV`) and of the side panel's brand
ordering (`src/components/Sidebar.tsx`).

The TypeScript code is embedded shallowly:

* Strings are handled as `List Char` in the parsing core (converted to
  `String` at field boundaries), so every operation is structural recursion
  that the kernel can evaluate.
* A JavaScript value that may be `undefined` (a destructured field past the
  end of the column list) is `Option String`; `none` is `undefined`.
* The `brandMap : Map<string, Brand>` of the source stores aliases of the
  very `Brand` objects pushed into the halls' `brands` arrays, and every
  entry of the map is pushed into exactly one hall at creation time.  The
  pure embedding therefore represents the map lookup as a search over all
  brands held by the halls, and the in-place mutation of the shared object
  as a rewrite of that brand where it lives (`updateBrandInHalls`).
* `fetch` is embedded as an explicit outcome value: either the promise
  chain throws (network/transport failure, or any exception in the
  pipeline, all absorbed by the source's `try/catch`), or a response with
  some `ok` status and a body text is obtained.  The source never inspects
  the status, which the embedding makes visible by never matching on it.
-/

/-- Vehicle entry as built by the loader (`{name, highlight, isNewLaunch,
note}`; the TS interface is `CarModel` in `../types`, whose file is not in
the repository snapshot — fields are exactly those the loader constructs and
the side panel reads).  `note` is `Option String` because the source stores
the destructured `note` column verbatim, which is `undefined` when the row
has fewer than seven columns. -/
structure VehicleEntry where
  name : String
  highlight : String
  isNewLaunch : Bool
  note : Option String
deriving Repr, DecidableEq

/-- Brand record, exactly the object literal created in `parseBrandsCSV`. -/
structure Brand where
  id : String
  booth : String
  name : String
  description : String
  models : List VehicleEntry
  fullModelList : List VehicleEntry
deriving Repr, DecidableEq

/-- Hall skeleton entry.  `id`, `code`, `floor`, `type` are the metadata
fields named by the spec (§3); only `code` and `brands` are touched by the
loader. -/
structure Hall where
  id : String
  code : String
  floor : String
  type : String
  brands : List Brand
deriving Repr, DecidableEq

/-! ### Tokenizer / row splitter (csvLoader.ts lines 19–29) -/

/-- JS `String.prototype.trim` on the ASCII whitespace the data can contain
(spaces, tabs, `\r` from CRLF line endings, `\n`). -/
def trimChars (cs : List Char) : List Char :=
  ((cs.dropWhile Char.isWhitespace).reverse.dropWhile Char.isWhitespace).reverse

/-- The splitter of `row.split(/,(?=(?:(?:[^"]*"){2})*[^"]*$)/)`: the
lookahead accepts exactly the positions where the remainder of the row
contains an even number of double-quote characters, so the row is split at a
comma iff the suffix after that comma has an even quote count.  `acc` holds
the current field reversed. -/
def splitEvenQuotesAux : List Char → List Char → List (List Char)
  | [], acc => [acc.reverse]
  | c :: rest, acc =>
    if c = ',' ∧ (rest.countP (fun d => d == '"')) % 2 = 0 then
      acc.reverse :: splitEvenQuotesAux rest []
    else
      splitEvenQuotesAux rest (c :: acc)

/-- One raw row split into raw (un-normalized) fields. -/
def splitRowRaw (row : List Char) : List (List Char) :=
  splitEvenQuotesAux row []

/-- JS `val.replace(/""/g, '"')`: left-to-right, non-overlapping collapse of
every doubled double-quote to a single one. -/
def collapseDoubledQuotes : List Char → List Char
  | '"' :: '"' :: rest => '"' :: collapseDoubledQuotes rest
  | c :: rest => c :: collapseDoubledQuotes rest
  | [] => []

/-- Embedding of `val.startsWith('"')`. -/
def startsWithQuote : List Char → Bool
  | [] => false
  | c :: _ => c == '"'

/-- Embedding of `val.endsWith('"')`. -/
def endsWithQuote (cs : List Char) : Bool :=
  match cs.getLast? with
  | none => false
  | some c => c == '"'

/-- Source line `if (val.startsWith('"') && val.endsWith('"')) val = val.slice(1, -1);`
For a one-character field `"` both tests pass and `slice(1, -1)` yields the
empty string, which `(cs.drop 1).dropLast` reproduces. -/
def stripOuterQuotes (cs : List Char) : List Char :=
  if startsWithQuote cs && endsWithQuote cs then (cs.drop 1).dropLast else cs

/-- The normalization applied to each split field: trim, strip surrounding
quotes, collapse doubled quotes (the body of the `.map` at lines 23–29). -/
def normalizeField (cs : List Char) : List Char :=
  collapseDoubledQuotes (stripOuterQuotes (trimChars cs))

/-- Embedding of `const cols = row.split(...).map(...)` — the final field list of one
row, as strings. -/
def parseCols (row : List Char) : List String :=
  (splitRowRaw row).map (fun f => String.mk (normalizeField f))

/-! ### Row classifier and aggregator (csvLoader.ts lines 34–79) -/

/-- JS truthiness of a possibly-`undefined` string (`if (note)`,
`if (modelName)`): false for `undefined` and for the empty string. -/
def jsTruthy : Option String → Bool
  | none => false
  | some s => !(s == "")

/-- JS `tag || ''`: the empty string when `tag` is `undefined` or empty,
otherwise `tag` itself. -/
def jsOrEmpty : Option String → String
  | none => ""
  | some s => if s == "" then "" else s

/-- The category dispatch (lines 55–79) applied to the target brand.
`category`, `modelName`, `tag`, `note` are the destructured columns 3–6,
`none` when the row is too short.  The source's
`if (!brand.fullModelList) brand.fullModelList = []` is a no-op because
every brand is created with `fullModelList: []`. -/
def applyCategory (category modelName tag note : Option String) (brand : Brand) : Brand :=
  if category = some "Info" then
    match note with
    | some n => if n = "" then brand else { brand with description := n }
    | none => brand
  else if category = some "Key" then
    match modelName with
    | some m =>
      if m = "" then brand
      else { brand with models := brand.models ++
              [{ name := m, highlight := jsOrEmpty tag, isNewLaunch := true, note := note }] }
    | none => brand
  else if category = some "Normal" then
    match modelName with
    | some m =>
      if m = "" then brand
      else { brand with fullModelList := brand.fullModelList ++
              [{ name := m, highlight := jsOrEmpty tag, isNewLaunch := false, note := note }] }
    | none => brand
  else brand

/-- All brands currently attached to the halls, in hall order.  Because
every brand stored in the source's `brandMap` was pushed into exactly one
hall when it was created, the map's contents are exactly this list. -/
def allBrands (halls : List Hall) : List Brand :=
  halls.flatMap Hall.brands

/-- The ids of all attached brands. -/
def allBrandIds (halls : List Hall) : List String :=
  (allBrands halls).map Brand.id

/-- Lookup `brandMap.get(brandId)` is a hit iff some hall already holds a brand
with this id. -/
def brandExists (halls : List Hall) (bid : String) : Bool :=
  (allBrands halls).any (fun b => b.id == bid)

/-- In-place mutation of the brand aliased by `brandMap.get(brandId)`:
rewrite the brand with that id where it lives. -/
def updateBrandInHalls (halls : List Hall) (bid : String) (f : Brand → Brand) : List Hall :=
  halls.map (fun h => { h with brands := h.brands.map (fun b => if b.id == bid then f b else b) })

/-- Embedding of `updatedHalls[hallIndex].brands.push(brand)`. -/
def pushBrandAt : List Hall → Nat → Brand → List Hall
  | [], _, _ => []
  | h :: hs, 0, b => { h with brands := h.brands ++ [b] } :: hs
  | h :: hs, n + 1, b => h :: pushBrandAt hs n b

/-- Processing of one row (the body of `rows.forEach`).  Columns 0–2 are
always present when `cols.length ≥ 3`, so the `getD ""` defaults never
fire on the guarded path. -/
def processRow (halls : List Hall) (row : List Char) : List Hall :=
  let cols := parseCols row
  if cols.length < 3 then halls
  else
    let hallCode := cols.getD 0 ""
    let booth := cols.getD 1 ""
    let brandName := cols.getD 2 ""
    let category := cols[3]?
    let modelName := cols[4]?
    let tag := cols[5]?
    let note := cols[6]?
    match halls.findIdx? (fun h => h.code == hallCode) with
    | none => halls
    | some hallIdx =>
      let brandId := hallCode ++ "-" ++ booth
      if brandExists halls brandId then
        updateBrandInHalls halls brandId (applyCategory category modelName tag note)
      else
        pushBrandAt halls hallIdx
          (applyCategory category modelName tag note
            { id := brandId, booth := booth, name := brandName,
              description := "", models := [], fullModelList := [] })

/-! ### Domain model assembler and orchestrator (csvLoader.ts lines 4–17, 81–88) -/

/-- JS `text.split('\n')` (single-character separator, empty pieces kept). -/
def splitOnCharAux (sep : Char) : List Char → List Char → List (List Char)
  | [], acc => [acc.reverse]
  | c :: rest, acc =>
    if c = sep then acc.reverse :: splitOnCharAux sep rest []
    else splitOnCharAux sep rest (c :: acc)

/-- Row extraction `text.split('\n').slice(1).filter(r => r.trim() !== '')` — the data
rows of the document: header dropped unconditionally, blank lines skipped. -/
def rowsOf (text : List Char) : List (List Char) :=
  ((splitOnCharAux '\n' text []).drop 1).filter (fun r => !(trimChars r).isEmpty)

/-- The skeleton clone `skeletonHalls.map(h => ({...h, brands: []}))`. -/
def eraseBrands (halls : List Hall) : List Hall :=
  halls.map (fun h => { h with brands := [] })

/-- Full parse of a fetched document body against the skeleton (the `try`
block after the fetch). -/
def parseBrandsText (text : List Char) (skeletonHalls : List Hall) : List Hall :=
  (rowsOf text).foldl processRow (eraseBrands skeletonHalls)

/-- Outcome of `await fetch(csvUrl)` / `await response.text()`: either the
await chain (or anything later in the `try` block) throws, or a response
arrives carrying an HTTP `ok` status and a body text. -/
inductive FetchOutcome where
  | throws : FetchOutcome
  | responds (ok : Bool) (body : List Char) : FetchOutcome
deriving Repr, DecidableEq

/-- Entry point `parseBrandsCSV`: the whole exported operation.  The `catch` returns the
original `skeletonHalls`; on a response the body is parsed without the `ok`
status ever being examined. -/
def parseBrandsCSV (outcome : FetchOutcome) (skeletonHalls : List Hall) : List Hall :=
  match outcome with
  | .throws => skeletonHalls
  | .responds _ body => parseBrandsText body skeletonHalls

/-! ### Side panel brand ordering (Sidebar.tsx line 94) -/

/-- Embedding of `const sortedBrands = [...hall.brands].sort((a, b) =>
a.booth.localeCompare(b.booth));` — `localeCompare` is locale dependent, so
the comparison is a parameter `le` (a total preorder as a `Bool` relation);
`Array.prototype.sort` with a consistent comparator is a stable sort of a
copy, embedded as `mergeSort`. -/
def sidebarSortedBrands (le : String → String → Bool) (hall : Hall) : List Brand :=
  hall.brands.mergeSort (fun a b => le a.booth b.booth)

/-! ### Specification-side definitions

These follow the words of the specification (not the source) and exist only
to be compared with the source-derived functions above. -/

/-- Splitter written from the spec's words: scan left to right tracking
whether the position is inside a quoted span (a pair of double quotes), and
split at a comma only when outside. -/
def splitQuoteAwareAux : Bool → List Char → List Char → List (List Char)
  | _, [], acc => [acc.reverse]
  | inQ, c :: rest, acc =>
    if c = ',' ∧ inQ = false then acc.reverse :: splitQuoteAwareAux false rest []
    else splitQuoteAwareAux (if c = '"' then !inQ else inQ) rest (c :: acc)

/-- Split a row at exactly the commas lying outside quoted spans. -/
def splitOutsideQuotes (row : List Char) : List (List Char) :=
  splitQuoteAwareAux false row []

/-- Field normalization written from the claim's words: trim, then strip the
outer quotes only when the trimmed field is wrapped in a matching *pair* of
double quotes (so at least two characters), then collapse doubled quotes. -/
def specNormalizeField (cs : List Char) : List Char :=
  let t := trimChars cs
  if 2 ≤ t.length ∧ startsWithQuote t = true ∧ endsWithQuote t = true then
    collapseDoubledQuotes ((t.drop 1).dropLast)
  else
    collapseDoubledQuotes t

/-- Field normalization as the code actually behaves: the outer characters
are dropped whenever the trimmed field both starts and ends with a double
quote, a condition a lone `"` also satisfies (becoming the empty field). -/
def amendedNormalizeField (cs : List Char) : List Char :=
  let t := trimChars cs
  if t.head? = some '"' ∧ t.getLast? = some '"' then
    collapseDoubledQuotes ((t.drop 1).dropLast)
  else
    collapseDoubledQuotes t

/-- The metadata of a hall that the loader must not touch: id, code, floor,
type. -/
def hallMeta (h : Hall) : String × String × String × String :=
  (h.id, h.code, h.floor, h.type)

/-- Lexicographic comparison of char lists by code point (a concrete total
preorder used to instantiate the side panel's comparator). -/
def lexLeChars : List Char → List Char → Bool
  | [], _ => true
  | _ :: _, [] => false
  | a :: as, b :: bs => if a = b then lexLeChars as bs else decide (a < b)

/-- Lexicographic comparison of strings. -/
def boothLe (a b : String) : Bool :=
  lexLeChars a.data b.data

/-! ### Concrete fixtures used by examples, witnesses and counterexamples -/

/-- A skeleton hall with code `17.2`. -/
def hall172 : Hall :=
  { id := "hall-17.2", code := "17.2", floor := "2", type := "乘用车", brands := [] }

/-- A brand already attached to hall `17.2`. -/
def brandX : Brand :=
  { id := "17.2-A01", booth := "A01", name := "BrandX", description := "",
    models := [], fullModelList := [] }

/-- Hall collection already holding `brandX`. -/
def halls0 : List Hall :=
  [{ hall172 with brands := [brandX] }]

/-- A data row targeting the existing brand of `halls0`. -/
def row0 : List Char :=
  "17.2,A01,BrandX,Key,ModelZ".data

/-- Document with one Info row and one Key row for the same hall and booth
(the spec's composite-dedup example). -/
def docDedup : List Char :=
  "Hall,Booth,Brand,Category,Name,Tag,Note\n17.2,A01,BrandX,Info,,,主打新能源\n17.2,A01,BrandX,Key,ModelX,首发,NoteX".data

/-- The single aggregated brand `docDedup` must produce. -/
def brandDedup : Brand :=
  { id := "17.2-A01", booth := "A01", name := "BrandX", description := "主打新能源",
    models := [{ name := "ModelX", highlight := "首发", isNewLaunch := true, note := some "NoteX" }],
    fullModelList := [] }

/-- A skeleton hall with code `H` (the spec's category-routing example). -/
def hallH : Hall :=
  { id := "hall-H", code := "H", floor := "1", type := "t", brands := [] }

/-- The spec's category-routing document: one Key row and one Normal row. -/
def docRouting : List Char :=
  "Hall,Booth,Brand,Category,Name,Tag,Note\nH,B,Name,Key,ModelX,首发,NoteX\nH,B,Name,Normal,ModelY,,NoteY".data

/-- The brand the routing document must produce. -/
def brandRouting : Brand :=
  { id := "H-B", booth := "B", name := "Name", description := "",
    models := [{ name := "ModelX", highlight := "首发", isNewLaunch := true, note := some "NoteX" }],
    fullModelList := [{ name := "ModelY", highlight := "", isNewLaunch := false, note := some "NoteY" }] }

/-- A Key row with only five columns: the tag and note columns are absent. -/
def docKeyFiveCols : List Char :=
  "Hall,Booth,Brand,Category,Name,Tag,Note\n17.2,A01,BrandX,Key,ModelX".data

/-- The brand produced from `docKeyFiveCols`: the appended entry carries
`note = none` (JS `undefined`), not the empty string. -/
def brandKeyNoNote : Brand :=
  { id := "17.2-A01", booth := "A01", name := "BrandX", description := "",
    models := [{ name := "ModelX", highlight := "", isNewLaunch := true, note := none }],
    fullModelList := [] }

/-- A well-formed document body (used to show a non-OK response is parsed
rather than dropped). -/
def docInfoHello : List Char :=
  "Hall,Booth,Brand,Category,Name,Tag,Note\n17.2,A01,BrandX,Info,,,Hello".data

/-- The brand `docInfoHello` produces. -/
def brandInfoHello : Brand :=
  { id := "17.2-A01", booth := "A01", name := "BrandX", description := "Hello",
    models := [], fullModelList := [] }

/-- A row whose fifth field is quote-wrapped and contains commas. -/
def rowQuotedComma : List Char :=
  "17.2,A01,BrandX,Key,\"Sedan, Luxury Edition\",首发,NoteX".data

/-- The escaped-quote example field of the spec. -/
def fieldEscapedQuote : List Char :=
  "\"5.0\"\"L Engine\"".data

/-- A row whose hall code matches no skeleton hall. -/
def rowUnknownHall : List Char :=
  "99.9,A01,BrandX,Info,,,Hello".data

/-- Document with two Info rows for the same brand and different notes. -/
def docTwoInfo : List Char :=
  "Hall,Booth,Brand,Category,Name,Tag,Note\n17.2,A01,BrandX,Info,,,First\n17.2,A01,BrandX,Info,,,Second".data

/-- The brand `docTwoInfo` produces: the later note wins. -/
def brandTwoInfo : Brand :=
  { id := "17.2-A01", booth := "A01", name := "BrandX", description := "Second",
    models := [], fullModelList := [] }

/-- Document whose single data row `17.2,,` has three fields but only one
populated field. -/
def docSparseRow : List Char :=
  "Hall,Booth,Brand,Category,Name,Tag,Note\n17.2,,".data

/-- A row with a single field. -/
def rowSingleField : List Char :=
  "justone".data

/-- The sparse data row of `docSparseRow`, alone. -/
def docSparseRowLine : List Char :=
  "17.2,,".data

/-- A field consisting of one double-quote character. -/
def loneQuoteField : List Char :=
  "\"".data

/-- Two brands with out-of-order booth codes. -/
def brandA1 : Brand :=
  { id := "17.2-A1", booth := "A1", name := "Alpha", description := "",
    models := [], fullModelList := [] }

/-- Second fixture brand for the sorting example. -/
def brandB2 : Brand :=
  { id := "17.2-B2", booth := "B2", name := "Beta", description := "",
    models := [], fullModelList := [] }

/-- A hall whose brand list is in reverse booth order. -/
def hallSortEx : Hall :=
  { hall172 with brands := [brandB2, brandA1] }

/-! ### Helper lemmas: tokenizer -/

/-- The source's even-quote-suffix splitter coincides with the quote-span
splitter whenever the remaining quote parity matches the current
in-quote state. -/
theorem splitEvenQuotesAux_eq_quoteAware (cs : List Char) :
    ∀ (acc : List Char) (inQ : Bool),
      (cs.countP (fun d => d == '"')) % 2 = (if inQ then 1 else 0) →
      splitEvenQuotesAux cs acc = splitQuoteAwareAux inQ cs acc := by
  induction cs with
  | nil => intro acc inQ _; rfl
  | cons c rest ih =>
    intro acc inQ hpar
    rw [List.countP_cons] at hpar
    by_cases hc : c = ','
    · subst hc
      rw [show ((',' : Char) == '"') = false from rfl] at hpar
      simp only [Bool.false_eq_true, if_false, Nat.add_zero] at hpar
      cases inQ with
      | false =>
        simp only [Bool.false_eq_true, if_false] at hpar
        rw [splitEvenQuotesAux, splitQuoteAwareAux]
        rw [if_pos ⟨rfl, hpar⟩, if_pos ⟨rfl, rfl⟩]
        rw [ih [] false (by simpa using hpar)]
      | true =>
        simp only [if_true] at hpar
        rw [splitEvenQuotesAux, splitQuoteAwareAux]
        rw [if_neg (fun h => by omega), if_neg (fun h => absurd h.2 (by decide))]
        rw [show (if (',' : Char) = '"' then !true else true) = true from rfl]
        exact ih _ true (by simpa using hpar)
    · by_cases hq : c = '"'
      · subst hq
        rw [show (('"' : Char) == '"') = true from rfl] at hpar
        simp only [if_true] at hpar
        rw [splitEvenQuotesAux, splitQuoteAwareAux]
        rw [if_neg (fun h => absurd h.1 (by decide)), if_neg (fun h => absurd h.1 (by decide))]
        rw [show (if ('"' : Char) = '"' then !inQ else inQ) = !inQ from by simp]
        apply ih
        cases inQ with
        | false =>
          simp only [Bool.false_eq_true, if_false] at hpar
          simp only [Bool.not_false, if_true]
          omega
        | true =>
          simp only [if_true] at hpar
          simp only [Bool.not_true, Bool.false_eq_true, if_false]
          omega
      · have hqb : (c == '"') = false := by simpa using hq
        rw [hqb] at hpar
        simp only [Bool.false_eq_true, if_false, Nat.add_zero] at hpar
        rw [splitEvenQuotesAux, splitQuoteAwareAux]
        rw [if_neg (fun h => absurd h.1 hc), if_neg (fun h => absurd h.1 hc)]
        rw [show (if c = '"' then !inQ else inQ) = inQ from by simp [hq]]
        exact ih _ inQ hpar

/-! ### Helper lemmas: field normalization -/

/-- Reading `startsWithQuote` through `head?`. -/
theorem startsWithQuote_iff (t : List Char) :
    startsWithQuote t = true ↔ t.head? = some '"' := by
  cases t <;> simp [startsWithQuote]

/-- Reading `endsWithQuote` through `getLast?`. -/
theorem endsWithQuote_iff (t : List Char) :
    endsWithQuote t = true ↔ t.getLast? = some '"' := by
  unfold endsWithQuote
  cases h : t.getLast? <;> simp

/-- What the `.map` body computes, phrased through `head?`/`getLast?`: the
outer characters are dropped exactly when the trimmed field starts and ends
with a double quote (a lone `"` qualifying as both). -/
theorem normalizeField_eq_amended (cs : List Char) :
    normalizeField cs = amendedNormalizeField cs := by
  unfold normalizeField amendedNormalizeField stripOuterQuotes
  rw [apply_ite collapseDoubledQuotes]
  simp only [Bool.and_eq_true, startsWithQuote_iff, endsWithQuote_iff]

/-! ### Helper lemmas: aggregator -/

/-- The category dispatch never touches the brand's id. -/
theorem applyCategory_id (c m t n : Option String) (b : Brand) :
    (applyCategory c m t n b).id = b.id := by
  unfold applyCategory
  repeat' split
  all_goals rfl

/-- The category dispatch never touches the brand's name. -/
theorem applyCategory_name (c m t n : Option String) (b : Brand) :
    (applyCategory c m t n b).name = b.name := by
  unfold applyCategory
  repeat' split
  all_goals rfl

/-- The category dispatch never touches the brand's booth. -/
theorem applyCategory_booth (c m t n : Option String) (b : Brand) :
    (applyCategory c m t n b).booth = b.booth := by
  unfold applyCategory
  repeat' split
  all_goals rfl

/-- Unfolding `allBrands` on a cons cell. -/
theorem allBrands_cons (h : Hall) (hs : List Hall) :
    allBrands (h :: hs) = h.brands ++ allBrands hs := by
  simp [allBrands]

/-- The cloned skeleton holds no brands. -/
theorem allBrands_eraseBrands (sk : List Hall) : allBrands (eraseBrands sk) = [] := by
  induction sk with
  | nil => rfl
  | cons h hs ih =>
    simp only [eraseBrands, List.map_cons, allBrands_cons, List.nil_append]
    simpa [eraseBrands] using ih

/-- Rewriting the aliased brand rewrites it inside `allBrands`. -/
theorem allBrands_updateBrandInHalls (halls : List Hall) (bid : String) (f : Brand → Brand) :
    allBrands (updateBrandInHalls halls bid f)
      = (allBrands halls).map (fun b => if b.id == bid then f b else b) := by
  induction halls with
  | nil => rfl
  | cons h hs ih =>
    simp only [updateBrandInHalls, List.map_cons] at *
    simp only [allBrands_cons, List.map_append, ih]

/-- If the rewrite preserves ids, the id list is unchanged. -/
theorem allBrandIds_updateBrandInHalls (halls : List Hall) (bid : String) (f : Brand → Brand)
    (hf : ∀ b, (f b).id = b.id) :
    allBrandIds (updateBrandInHalls halls bid f) = allBrandIds halls := by
  unfold allBrandIds
  rw [allBrands_updateBrandInHalls, List.map_map]
  apply List.map_congr_left
  intro b _
  by_cases hb : (b.id == bid) = true <;> simp [Function.comp, hb, hf b]

/-- Pushing a brand into the hall at index `i` inserts it into `allBrands`
(up to permutation); an out-of-range index changes nothing. -/
theorem pushBrandAt_perm_or_eq (halls : List Hall) :
    ∀ (i : Nat) (nb : Brand),
      (allBrands (pushBrandAt halls i nb)).Perm (nb :: allBrands halls)
        ∨ pushBrandAt halls i nb = halls := by
  induction halls with
  | nil => intro i nb; exact Or.inr rfl
  | cons h hs ih =>
    intro i nb
    cases i with
    | zero =>
      refine Or.inl ?_
      simp only [pushBrandAt, allBrands_cons, List.append_assoc, List.singleton_append]
      exact List.perm_middle
    | succ n =>
      rcases ih n nb with hperm | heq
      · refine Or.inl ?_
        simp only [pushBrandAt, allBrands_cons]
        exact (hperm.append_left h.brands).trans List.perm_middle
      · refine Or.inr ?_
        simp [pushBrandAt, heq]

/-- Pushing a brand leaves every hall's metadata alone. -/
theorem pushBrandAt_map_hallMeta (halls : List Hall) :
    ∀ (i : Nat) (nb : Brand),
      (pushBrandAt halls i nb).map hallMeta = halls.map hallMeta := by
  induction halls with
  | nil => intro i nb; rfl
  | cons h hs ih =>
    intro i nb
    cases i with
    | zero => simp only [pushBrandAt, List.map_cons]; rfl
    | succ n => simp only [pushBrandAt, List.map_cons, ih n nb]

/-- Rewriting a brand in place leaves every hall's metadata alone. -/
theorem updateBrandInHalls_map_hallMeta (halls : List Hall) (bid : String) (f : Brand → Brand) :
    (updateBrandInHalls halls bid f).map hallMeta = halls.map hallMeta := by
  induction halls with
  | nil => rfl
  | cons h hs ih =>
    simp only [updateBrandInHalls, List.map_cons] at *
    rw [ih]
    rfl

/-- A miss in `brandMap` means the id occurs nowhere among the halls. -/
theorem brandExists_false_iff (halls : List Hall) (bid : String) :
    brandExists halls bid = false ↔ bid ∉ allBrandIds halls := by
  unfold brandExists allBrandIds
  rw [List.any_eq_false]
  constructor
  · intro hall hmem
    rcases List.mem_map.mp hmem with ⟨b, hb, hid⟩
    exact hall b hb (by simp [hid])
  · intro hno b hb hbeq
    exact hno (List.mem_map.mpr ⟨b, hb, by simpa using hbeq⟩)

/-- One row leaves the halls unchanged, rewrites one aliased brand in place
(by an id/name/booth-preserving function), or pushes a brand whose id was
not yet taken. -/
theorem processRow_shape (halls : List Hall) (row : List Char) :
    processRow halls row = halls
    ∨ (∃ bid f, (∀ b : Brand, (f b).id = b.id ∧ (f b).name = b.name ∧ (f b).booth = b.booth)
        ∧ processRow halls row = updateBrandInHalls halls bid f)
    ∨ (∃ i nb, brandExists halls nb.id = false
        ∧ processRow halls row = pushBrandAt halls i nb) := by
  simp only [processRow]
  split
  · exact Or.inl rfl
  · split
    · exact Or.inl rfl
    · split
      · refine Or.inr (Or.inl ⟨_, _, ?_, rfl⟩)
        intro b
        exact ⟨applyCategory_id _ _ _ _ b, applyCategory_name _ _ _ _ b,
          applyCategory_booth _ _ _ _ b⟩
      · rename_i hex
        refine Or.inr (Or.inr ⟨_, _, ?_, rfl⟩)
        rw [applyCategory_id]
        exact Bool.not_eq_true _ |>.mp hex

/-- One row never changes the halls' metadata. -/
theorem processRow_map_hallMeta (halls : List Hall) (row : List Char) :
    (processRow halls row).map hallMeta = halls.map hallMeta := by
  rcases processRow_shape halls row with h | ⟨bid, f, hf, h⟩ | ⟨i, nb, hex, h⟩ <;> rw [h]
  · exact updateBrandInHalls_map_hallMeta halls bid f
  · exact pushBrandAt_map_hallMeta halls i nb

/-- One row preserves global uniqueness of brand ids. -/
theorem processRow_nodup (halls : List Hall) (row : List Char)
    (hnd : (allBrandIds halls).Nodup) :
    (allBrandIds (processRow halls row)).Nodup := by
  rcases processRow_shape halls row with h | ⟨bid, f, hf, h⟩ | ⟨i, nb, hex, h⟩ <;> rw [h]
  · exact hnd
  · rw [allBrandIds_updateBrandInHalls halls bid f (fun b => (hf b).1)]; exact hnd
  · rcases pushBrandAt_perm_or_eq halls i nb with hperm | heq
    · have hids := hperm.map Brand.id
      unfold allBrandIds
      exact hids.nodup_iff.mpr
        (List.nodup_cons.mpr ⟨(brandExists_false_iff halls nb.id).mp hex, hnd⟩)
    · rw [heq]; exact hnd

/-- One row never deletes an attached brand, nor changes its id, name or
booth: later rows only fold data into existing brands or add fresh ones. -/
theorem processRow_mem (halls : List Hall) (row : List Char) (b : Brand)
    (hb : b ∈ allBrands halls) :
    ∃ b2, b2 ∈ allBrands (processRow halls row)
      ∧ b2.id = b.id ∧ b2.name = b.name ∧ b2.booth = b.booth := by
  rcases processRow_shape halls row with h | ⟨bid, f, hf, h⟩ | ⟨i, nb, hex, h⟩
  · exact ⟨b, by rw [h]; exact hb, rfl, rfl, rfl⟩
  · refine ⟨if b.id == bid then f b else b, ?_, ?_, ?_, ?_⟩
    · rw [h, allBrands_updateBrandInHalls]
      exact List.mem_map_of_mem _ hb
    · by_cases hc : (b.id == bid) = true <;> simp [hc, (hf b).1]
    · by_cases hc : (b.id == bid) = true <;> simp [hc, (hf b).2.1]
    · by_cases hc : (b.id == bid) = true <;> simp [hc, (hf b).2.2]
  · rcases pushBrandAt_perm_or_eq halls i nb with hperm | heq
    · exact ⟨b, by rw [h]; exact hperm.mem_iff.mpr (List.mem_cons_of_mem nb hb), rfl, rfl, rfl⟩
    · exact ⟨b, by rw [h, heq]; exact hb, rfl, rfl, rfl⟩

/-- Folding all rows never changes the halls' metadata. -/
theorem foldl_processRow_map_hallMeta (rows : List (List Char)) :
    ∀ halls : List Hall, ((rows.foldl processRow halls).map hallMeta) = halls.map hallMeta := by
  induction rows with
  | nil => intro halls; rfl
  | cons r rs ih => intro halls; rw [List.foldl_cons, ih, processRow_map_hallMeta]

/-- Folding all rows preserves global uniqueness of brand ids. -/
theorem foldl_processRow_nodup (rows : List (List Char)) :
    ∀ halls : List Hall, (allBrandIds halls).Nodup →
      (allBrandIds (rows.foldl processRow halls)).Nodup := by
  induction rows with
  | nil => intro halls h; exact h
  | cons r rs ih => intro halls h; exact ih _ (processRow_nodup halls r h)

/-- The cloned skeleton's metadata is the skeleton's. -/
theorem eraseBrands_map_hallMeta (sk : List Hall) :
    (eraseBrands sk).map hallMeta = sk.map hallMeta := by
  induction sk with
  | nil => rfl
  | cons h hs ih =>
    simp only [eraseBrands, List.map_cons] at *
    rw [ih]
    rfl

/-- Cloning twice is cloning once. -/
theorem eraseBrands_idem (sk : List Hall) : eraseBrands (eraseBrands sk) = eraseBrands sk := by
  induction sk with
  | nil => rfl
  | cons h hs ih => simp only [eraseBrands, List.map_cons] at *; rw [ih]

/-- The cloned skeleton has no brand ids. -/
theorem allBrandIds_eraseBrands (sk : List Hall) : allBrandIds (eraseBrands sk) = [] := by
  unfold allBrandIds
  rw [allBrands_eraseBrands]
  rfl

/-! ### Helper lemmas: lexicographic comparator -/

/-- Totality of `lexLeChars`. -/
theorem lexLeChars_total : ∀ as bs : List Char, (lexLeChars as bs || lexLeChars bs as) = true := by
  intro as
  induction as with
  | nil => intro bs; simp [lexLeChars]
  | cons a as ih =>
    intro bs
    cases bs with
    | nil => simp [lexLeChars]
    | cons b bs =>
      by_cases hab : a = b
      · subst hab
        simp only [lexLeChars, if_pos rfl]
        exact ih bs
      · have hba : ¬b = a := fun h => hab h.symm
        simp only [lexLeChars, if_neg hab, if_neg hba, Bool.or_eq_true, decide_eq_true_eq]
        rcases lt_or_gt_of_ne hab with h | h
        · exact Or.inl h
        · exact Or.inr h

/-- Transitivity of `lexLeChars`. -/
theorem lexLeChars_trans : ∀ as bs cs : List Char,
    lexLeChars as bs = true → lexLeChars bs cs = true → lexLeChars as cs = true := by
  intro as
  induction as with
  | nil => intro bs cs h1 h2; simp [lexLeChars]
  | cons a as ih =>
    intro bs cs h1 h2
    cases bs with
    | nil => simp [lexLeChars] at h1
    | cons b bs =>
      cases cs with
      | nil => simp [lexLeChars] at h2
      | cons c cs =>
        by_cases hab : a = b
        · subst hab
          simp only [lexLeChars, if_pos rfl] at h1
          by_cases hac : a = c
          · subst hac
            simp only [lexLeChars, if_pos rfl] at h2 ⊢
            exact ih bs cs h1 h2
          · simp only [lexLeChars, if_neg hac] at h2 ⊢
            exact h2
        · simp only [lexLeChars, if_neg hab, decide_eq_true_eq] at h1
          by_cases hbc : b = c
          · subst hbc
            have hac : ¬a = b := hab
            simp only [lexLeChars, if_neg hac, decide_eq_true_eq]
            exact h1
          · simp only [lexLeChars, if_neg hbc, decide_eq_true_eq] at h2
            have hlt : a < c := lt_trans h1 h2
            simp only [lexLeChars, if_neg (ne_of_lt hlt), decide_eq_true_eq]
            exact hlt

/-- Transitivity of `boothLe`. -/
theorem boothLe_trans (a b c : String) :
    boothLe a b = true → boothLe b c = true → boothLe a c = true :=
  lexLeChars_trans a.data b.data c.data

/-- Totality of `boothLe`. -/
theorem boothLe_total (a b : String) : (boothLe a b || boothLe b a) = true :=
  lexLeChars_total a.data b.data

/-! ### Claim theorems -/

/-- C1: Brand ids are globally unique in every parse result; a row never
deletes, renames or re-booths an existing brand (later rows with the same
composite id fold into it); and the spec's dedup example — one Info row and
one Key row for hall `17.2`, booth `A01` — yields a single Brand carrying
both the description and one models entry. -/
theorem brand_identity_dedup :
    (∀ (text : List Char) (sk : List Hall), (allBrandIds (parseBrandsText text sk)).Nodup)
    ∧ (∀ (halls : List Hall) (row : List Char) (b : Brand), b ∈ allBrands halls →
        ∃ b2, b2 ∈ allBrands (processRow halls row)
          ∧ b2.id = b.id ∧ b2.name = b.name ∧ b2.booth = b.booth)
    ∧ parseBrandsText docDedup [hall172] = [{ hall172 with brands := [brandDedup] }] := by
  refine ⟨?_, processRow_mem, by decide⟩
  intro text sk
  unfold parseBrandsText
  exact foldl_processRow_nodup _ _ (by rw [allBrandIds_eraseBrands]; exact List.nodup_nil)

/-- C1 witness: the preservation clause applied to a concrete hall list
holding `brandX` and a concrete later row for the same composite id. -/
theorem brand_identity_dedup_witness :
    ∃ b2, b2 ∈ allBrands (processRow halls0 row0)
      ∧ b2.id = brandX.id ∧ b2.name = brandX.name ∧ b2.booth = brandX.booth :=
  brand_identity_dedup.2.1 halls0 row0 brandX (by decide)

/-- C2 counterexample: a Key row with only five columns appends an entry
whose `note` is `none` (JS `undefined`), not the empty string claimed. -/
theorem key_row_absent_note_not_empty :
    parseBrandsText docKeyFiveCols [hall172] = [{ hall172 with brands := [brandKeyNoNote] }]
    ∧ brandKeyNoNote.models.map VehicleEntry.note = [none]
    ∧ ([none] : List (Option String)) ≠ [some ""] :=
  ⟨by decide, by decide, by decide⟩

/-- C2 (amended): a Key row with non-empty model name appends
`{name, highlight = tag-or-empty, isNewLaunch = true, note}` to `models`,
a Normal row symmetrically appends to `fullModelList` with
`isNewLaunch = false`; an absent tag becomes the empty string while the
note column is carried as-is (`none` when absent); an empty or absent model
name appends nothing; and the spec's routing example produces exactly the
claimed two entries. -/
theorem key_normal_row_routing :
    (∀ (tag note : Option String) (m : String) (b : Brand), ¬m = "" →
        applyCategory (some "Key") (some m) tag note b
          = { b with models := b.models ++
                [{ name := m, highlight := jsOrEmpty tag, isNewLaunch := true, note := note }] })
    ∧ (∀ (tag note : Option String) (m : String) (b : Brand), ¬m = "" →
        applyCategory (some "Normal") (some m) tag note b
          = { b with fullModelList := b.fullModelList ++
                [{ name := m, highlight := jsOrEmpty tag, isNewLaunch := false, note := note }] })
    ∧ (∀ (tag note : Option String) (b : Brand),
        applyCategory (some "Key") (some "") tag note b = b
        ∧ applyCategory (some "Key") none tag note b = b
        ∧ applyCategory (some "Normal") (some "") tag note b = b
        ∧ applyCategory (some "Normal") none tag note b = b)
    ∧ parseBrandsText docRouting [hallH] = [{ hallH with brands := [brandRouting] }] := by
  refine ⟨?_, ?_, ?_, by decide⟩
  · intro tag note m b hm
    simp [applyCategory, hm]
  · intro tag note m b hm
    simp [applyCategory, hm]
  · intro tag note b
    refine ⟨?_, ?_, ?_, ?_⟩ <;> simp [applyCategory]

/-- C2 witness: the Key clause applied at a concrete non-empty model name. -/
theorem key_normal_row_routing_witness :
    ¬"ModelZ" = ""
    ∧ applyCategory (some "Key") (some "ModelZ") none none brandX
        = { brandX with models := brandX.models ++
              [{ name := "ModelZ", highlight := jsOrEmpty none, isNewLaunch := true, note := none }] } :=
  ⟨by decide, key_normal_row_routing.1 none none "ModelZ" brandX (by decide)⟩

/-- C3 counterexample: a response whose `ok` flag is false is parsed like
any other — its body creates a brand, so the returned collection is not the
unmodified skeleton the claim requires for a non-OK response. -/
theorem non_ok_response_body_parsed :
    parseBrandsCSV (.responds false docInfoHello) [hall172]
        = [{ hall172 with brands := [brandInfoHello] }]
    ∧ parseBrandsCSV (.responds false docInfoHello) [hall172] ≠ [hall172] :=
  ⟨by decide, by decide⟩

/-- C3 (amended): the operation is total (never rejects); when the fetch or
the pipeline throws it returns the original, unmodified skeleton — never a
partially mutated one; a response, OK or not, has its body parsed with the
status ignored. -/
theorem loader_failure_fallback :
    (∀ sk : List Hall, parseBrandsCSV .throws sk = sk)
    ∧ (∀ (ok : Bool) (body : List Char) (sk : List Hall),
        parseBrandsCSV (.responds ok body) sk = parseBrandsText body sk)
    ∧ (∀ (body : List Char) (sk : List Hall),
        parseBrandsCSV (.responds true body) sk = parseBrandsCSV (.responds false body) sk) :=
  ⟨fun _ => rfl, fun _ _ _ => rfl, fun _ _ => rfl⟩

/-- C4: on rows with balanced quotes the source's splitter cuts exactly at
the commas outside quoted spans, and the quoted field
`"Sedan, Luxury Edition"` comes out as one field with its comma intact. -/
theorem quoted_comma_split :
    (∀ row : List Char, (row.countP (fun d => d == '"')) % 2 = 0 →
        splitRowRaw row = splitOutsideQuotes row)
    ∧ parseCols rowQuotedComma
        = ["17.2", "A01", "BrandX", "Key", "Sedan, Luxury Edition", "首发", "NoteX"] := by
  constructor
  · intro row h
    exact splitEvenQuotesAux_eq_quoteAware row [] false (by simpa using h)
  · decide

/-- C4 witness: the balanced-quotes clause applied to the concrete row with
a quoted, comma-carrying field. -/
theorem quoted_comma_split_witness :
    (rowQuotedComma.countP (fun d => d == '"')) % 2 = 0
    ∧ splitRowRaw rowQuotedComma = splitOutsideQuotes rowQuotedComma :=
  ⟨by decide, quoted_comma_split.1 rowQuotedComma (by decide)⟩

/-- C5 counterexample: the field consisting of a lone double quote is not
wrapped in a matching pair, so the claimed normalization leaves it alone,
but the code strips it to the empty field (`startsWith` and `endsWith` both
look at the same character). -/
theorem lone_quote_field_stripped :
    specNormalizeField loneQuoteField = loneQuoteField
    ∧ normalizeField loneQuoteField = []
    ∧ normalizeField loneQuoteField ≠ specNormalizeField loneQuoteField :=
  ⟨by decide, by decide, by decide⟩

/-- C5 (amended): normalization trims, strips the outer characters whenever
the trimmed field starts and ends with a double quote — a lone `"` counts
and becomes empty — then collapses doubled quotes; the spec's escaped-quote
example `"5.0""L Engine"` parses to `5.0"L Engine`. -/
theorem field_normalization :
    (∀ cs : List Char, normalizeField cs = amendedNormalizeField cs)
    ∧ String.mk (normalizeField fieldEscapedQuote) = "5.0\"L Engine" :=
  ⟨normalizeField_eq_amended, by decide⟩

/-- C6: a row whose hall code matches no hall's code leaves the hall
collection exactly as it was — no brand is created or modified anywhere. -/
theorem unknown_hall_row_ignored (halls : List Hall) (row : List Char)
    (hno : ∀ h ∈ halls, h.code ≠ (parseCols row).getD 0 "") :
    processRow halls row = halls := by
  simp only [processRow]
  split
  · rfl
  · have hfind : (halls.findIdx? fun h => h.code == (parseCols row).getD 0 "") = none :=
      List.findIdx?_eq_none_iff.mpr (fun h hm => by simpa using hno h hm)
    rw [hfind]

/-- C6 witness: a concrete row with hall code `99.9` against the skeleton
holding only hall `17.2`. -/
theorem unknown_hall_row_ignored_witness :
    (∀ h ∈ [hall172], h.code ≠ (parseCols rowUnknownHall).getD 0 "")
    ∧ processRow [hall172] rowUnknownHall = [hall172] :=
  ⟨by decide, unknown_hall_row_ignored [hall172] rowUnknownHall (by decide)⟩

/-- C7: an Info row with non-empty note overwrites the brand's description
and creates no model entry; with an empty or absent note it changes
nothing; two Info rows for the same brand leave the later note (last write
wins). -/
theorem info_row_description :
    (∀ (mn tag : Option String) (n : String) (b : Brand), ¬n = "" →
        applyCategory (some "Info") mn tag (some n) b = { b with description := n })
    ∧ (∀ (mn tag : Option String) (b : Brand),
        applyCategory (some "Info") mn tag (some "") b = b
        ∧ applyCategory (some "Info") mn tag none b = b)
    ∧ parseBrandsText docTwoInfo [hall172] = [{ hall172 with brands := [brandTwoInfo] }] := by
  refine ⟨?_, ?_, by decide⟩
  · intro mn tag n b hn
    simp [applyCategory, hn]
  · intro mn tag b
    exact ⟨by simp [applyCategory], by simp [applyCategory]⟩

/-- C7 witness: the overwrite clause applied at a concrete non-empty note. -/
theorem info_row_description_witness :
    ¬"Hello" = ""
    ∧ applyCategory (some "Info") none none (some "Hello") brandX
        = { brandX with description := "Hello" } :=
  ⟨by decide, info_row_description.1 none none "Hello" brandX (by decide)⟩

/-- C8 counterexample: the row `17.2,,` has three fields but only one
populated field, yet it is not ignored — it creates a brand (with empty
booth and name) in hall `17.2`, because the code counts fields, populated
or not. -/
theorem sparse_row_not_ignored :
    ((parseCols docSparseRowLine).filter (fun f => !(f == ""))).length = 1
    ∧ ((parseBrandsText docSparseRow [hall172]).flatMap Hall.brands).length = 1
    ∧ parseBrandsText docSparseRow [hall172] ≠ [hall172] :=
  ⟨by decide, by decide, by decide⟩

/-- C8 (amended): a row that splits into fewer than three fields —
populated or not — is ignored: no hall lookup, no brand created or
modified. -/
theorem short_row_ignored (halls : List Hall) (row : List Char)
    (h : (parseCols row).length < 3) :
    processRow halls row = halls := by
  simp only [processRow]
  rw [if_pos h]

/-- C8 witness: a one-field row against the concrete skeleton. -/
theorem short_row_ignored_witness :
    (parseCols rowSingleField).length < 3
    ∧ processRow [hall172] rowSingleField = [hall172] :=
  ⟨by decide, short_row_ignored [hall172] rowSingleField (by decide)⟩

/-- C9: the parse result always carries exactly the skeleton's halls — same
count, same order, same id/code/floor/type — the result ignores whatever
brands the skeleton carried (they are discarded, not merged), and with no
data rows every hall's brands list is exactly the freshly emptied one. -/
theorem skeleton_halls_preserved :
    (∀ (text : List Char) (sk : List Hall),
        (parseBrandsText text sk).map hallMeta = sk.map hallMeta)
    ∧ (∀ (text : List Char) (sk : List Hall),
        parseBrandsText text sk = parseBrandsText text (eraseBrands sk))
    ∧ (∀ sk : List Hall, parseBrandsText [] sk = eraseBrands sk) := by
  refine ⟨?_, ?_, fun sk => rfl⟩
  · intro text sk
    unfold parseBrandsText
    rw [foldl_processRow_map_hallMeta, eraseBrands_map_hallMeta]
  · intro text sk
    unfold parseBrandsText
    rw [eraseBrands_idem]

/-- C10: for any total, transitive comparator the side panel displays a
permutation of the hall's brands sorted on the booth field, and on a
concrete hall stored in reverse booth order the displayed list is the
booth-sorted one, not the insertion order. -/
theorem sidebar_brand_sorting :
    (∀ le : String → String → Bool,
        (∀ x y z, le x y = true → le y z = true → le x z = true) →
        (∀ x y, (le x y || le y x) = true) →
        ∀ hall : Hall,
          (sidebarSortedBrands le hall).Perm hall.brands
          ∧ (sidebarSortedBrands le hall).Pairwise (fun a b => le a.booth b.booth = true))
    ∧ sidebarSortedBrands boothLe hallSortEx = [brandA1, brandB2]
    ∧ hallSortEx.brands = [brandB2, brandA1] := by
  refine ⟨?_, ?_, by decide⟩
  · intro le htrans htotal hall
    unfold sidebarSortedBrands
    constructor
    · exact List.mergeSort_perm hall.brands _
    · exact @List.sorted_mergeSort Brand (fun a b => le a.booth b.booth)
        (fun a b c hab hbc => htrans _ _ _ hab hbc)
        (fun a b => htotal _ _) hall.brands
  · unfold sidebarSortedBrands
    simp [hallSortEx, hall172, brandA1, brandB2, List.mergeSort, List.merge,
      show boothLe "B2" "A1" = false from by decide]

/-- C10 witness: the comparator clause applied to the concrete
lexicographic comparator and the concrete out-of-order hall. -/
theorem sidebar_brand_sorting_witness :
    (sidebarSortedBrands boothLe hallSortEx).Perm hallSortEx.brands
    ∧ (sidebarSortedBrands boothLe hallSortEx).Pairwise
        (fun a b => boothLe a.booth b.booth = true) :=
  sidebar_brand_sorting.1 boothLe boothLe_trans boothLe_total hallSortEx
